import Mathlib

/-!
Verification of the entsquish file-merging core (`package_detector.go` merge
engine, `extension.go` wiring) against its natural-language specification.

The Go code is shallowly embedded: the fragment of `go/ast` that the merge
engine inspects is modelled by the inductive types below, Go maps whose values
are never the empty string are modelled as association lists with a lookup
that returns `""` for a missing key (exactly the zero-value semantics the Go
code relies on), and the one in-place mutation (`updateIdentifiersForDeclaration`,
which rewrites identifier nodes of declarations shared with the input files)
is modelled by explicit state passing: `mergeASTsFull` returns both the merged
file and the post-call contents of the input files.
-/

mutual
/-- Fragment of `go/ast` expressions inspected by the merge engine:
identifiers, basic literals, selector expressions, star (pointer) types,
calls, struct types and interface types. -/
inductive GoExpr where
  | ident (name : String)
  | lit (v : String)
  | sel (x : GoExpr) (field : String)
  | star (x : GoExpr)
  | call (fn : GoExpr) (args : List GoExpr)
  | structType (fields : List GoField)
  | interfaceType (methods : List GoField)
deriving Repr
/-- An `ast.Field`: a (possibly empty) name list and a type expression. -/
inductive GoField where
  | mk (names : List String) (ty : GoExpr)
deriving Repr
end

def GoField.names : GoField → List String
  | .mk ns _ => ns

def GoField.ty : GoField → GoExpr
  | .mk _ t => t

/-- Fragment of `go/ast` statements inspected by `CollectAllIdentifiers`:
assignments (including short declarations), range loops, type switches,
expression statements and returns. -/
inductive GoStmt where
  | assign (lhs rhs : List GoExpr)
  | rangeStmt (key value : Option GoExpr) (x : GoExpr) (body : List GoStmt)
  | typeSwitch (switchAssign : GoStmt) (body : List GoStmt)
  | exprStmt (e : GoExpr)
  | ret (results : List GoExpr)
deriving Repr

/-- The token of an `ast.GenDecl` (`token.VAR` / `token.CONST` / `token.TYPE`
/ `token.IMPORT`). -/
inductive GoSpecTok where
  | varTok | constTok | typeTok | importTok
deriving Repr, DecidableEq

/-- An `ast.Spec` inside a `GenDecl`: a `ValueSpec` (bound names plus
initializer expressions) or a `TypeSpec` (type name plus underlying type). -/
inductive GoSpec where
  | valueSpec (names : List String) (values : List GoExpr)
  | typeSpec (name : String) (ty : GoExpr)
deriving Repr

/-- An `ast.Decl`: a `GenDecl` or a `FuncDecl`.  `recv = none` models a nil
receiver field list (a plain function), `recv = some l` a method receiver
list `l`. -/
inductive GoDecl where
  | genDecl (tok : GoSpecTok) (specs : List GoSpec)
  | funcDecl (name : String) (recv : Option (List GoField))
      (params : List GoField) (results : List GoField) (body : List GoStmt)
deriving Repr

/-- An `ast.ImportSpec`: optional written alias and the path literal
(including its surrounding double quotes, as in `imp.Path.Value`). -/
structure GoImportSpec where
  name : Option String
  path : String
deriving Repr, DecidableEq

/-- One parsed file handed to the merge engine (the `FileInfo.AST` data the
merge core reads: package name, collected import specs, declarations). -/
structure GoFile where
  pkgName : String
  imports : List GoImportSpec
  decls : List GoDecl
deriving Repr

/-! ### String helpers (`strings.Trim`, `strings.Split`, Go map lookup) -/

/-- `strings.Trim(s, "\"")`: removes all leading and trailing `"` characters. -/
def trimQuotes (s : String) : String :=
  ⟨((s.data.dropWhile (fun c => c == '"')).reverse.dropWhile (fun c => c == '"')).reverse⟩

/-- `pathParts[len(pathParts)-1]` for
`pathParts := strings.Split(strings.Trim(path, "\""), "/")`:
the last segment of the unquoted import path.  The last element of
`strings.Split(s, "/")` is exactly the suffix of `s` after its final `/`
(all of `s` when `s` has no `/`, and `""` when `s` ends in `/`), computed
here directly on the character list. -/
def lastSegment (path : String) : String :=
  ⟨((trimQuotes path).data.reverse.takeWhile (fun c => !(c == '/'))).reverse⟩

/-- Lookup in a Go `map[string]string` whose stored values are never `""`:
returns the mapped value, or `""` (the Go zero value) when the key is absent. -/
def glookup (m : List (String × String)) (k : String) : String :=
  match m.find? (fun p => p.1 == k) with
  | some p => p.2
  | none => ""

/-! ### `SanitizeIdentifier` and `GenerateUniqueAlias` -/

/-- The Go keyword table of `SanitizeIdentifier`. -/
def goKeywords : List String :=
  ["break", "case", "chan", "const", "continue",
   "default", "defer", "else", "fallthrough", "for",
   "func", "go", "goto", "if", "import",
   "interface", "map", "package", "range", "return",
   "select", "struct", "switch", "type", "var"]

def isIdentStart (c : Char) : Bool :=
  ('a' ≤ c && c ≤ 'z') || ('A' ≤ c && c ≤ 'Z') || c == '_'

def isIdentChar (c : Char) : Bool :=
  isIdentStart c || ('0' ≤ c && c ≤ '9')

/-- `SanitizeIdentifier` (package_detector.go): empty, `"_"`, `"."` map to
`"pkg"`; Go keywords get a `"pkg"` suffix; strings matching
`[A-Za-z_][A-Za-z0-9_]*` are returned unchanged; everything else maps to
`"pkg"`. -/
def sanitizeIdentifier (name : String) : String :=
  if name == "" || name == "_" || name == "." then "pkg"
  else if goKeywords.contains name then name ++ "pkg"
  else
    match name.data with
    | [] => "pkg"
    | c :: rest => if isIdentStart c && rest.all isIdentChar then name else "pkg"

/-- `!usedIdentifiers[candidate] && aliasToPath[candidate] == ""`:
the candidate alias is neither a collected identifier nor an
already-assigned alias. -/
def isFreeAlias (used : List String) (assigned : List (String × String)) (c : String) : Bool :=
  !used.contains c && glookup assigned c == ""

/-- The numbered-candidate loop of `GenerateUniqueAlias` ("Strategy 2"):
tries `base ++ "pkg" ++ toString counter` for `counter = 2, 3, ...`; once the
counter would exceed 1000 it falls back to `"pkg" ++ toString (len+1)` where
`len` is the number of already-assigned aliases.  The fuel argument makes the
recursion structural; the function is always called with enough fuel for the
cap to fire first, so the fuel-exhausted branch returns the same fallback. -/
def genFrom (base : String) (used : List String) (assigned : List (String × String)) :
    Nat → Nat → String
  | 0, _ => "pkg" ++ toString (assigned.length + 1)
  | fuel + 1, counter =>
    let candidate := base ++ "pkg" ++ toString counter
    if isFreeAlias used assigned candidate then candidate
    else if counter + 1 > 1000 then "pkg" ++ toString (assigned.length + 1)
    else genFrom base used assigned fuel (counter + 1)

/-- `GenerateUniqueAlias` (package_detector.go): sanitize the base; if
sanitization changed it and the sanitized name alone is free, return it;
else try `base ++ "pkg"`; else enter the numbered loop. -/
def generateUniqueAlias (baseName0 : String) (used : List String)
    (assigned : List (String × String)) : String :=
  let sanitizedBase := sanitizeIdentifier baseName0
  if sanitizedBase != baseName0 && isFreeAlias used assigned sanitizedBase then
    sanitizedBase
  else
    let baseName := if sanitizedBase != baseName0 then sanitizedBase else baseName0
    let candidate := baseName ++ "pkg"
    if isFreeAlias used assigned candidate then candidate
    else genFrom baseName used assigned 999 2

/-! ### `CollectAllIdentifiers`

Mirrors the `ast.Inspect` traversal: each node contributes the names its
case in the source's type switch collects, and traversal continues into all
children.  Plain identifier nodes contribute nothing on their own. -/

def directIdents (es : List GoExpr) : List String :=
  es.filterMap (fun e => match e with | .ident n => some n | _ => none)

mutual
def collectExpr : GoExpr → List String
  | .ident _ => []
  | .lit _ => []
  | .sel x _ => collectExpr x
  | .star x => collectExpr x
  | .call fn args => collectExpr fn ++ collectExprList args
  | .structType fields => fields.flatMap GoField.names ++ collectFieldList fields
  | .interfaceType methods => methods.flatMap GoField.names ++ collectFieldList methods
def collectExprList : List GoExpr → List String
  | [] => []
  | e :: es => collectExpr e ++ collectExprList es
def collectFieldList : List GoField → List String
  | [] => []
  | .mk _ t :: fs => collectExpr t ++ collectFieldList fs
end

mutual
def collectStmt : GoStmt → List String
  | .assign lhs rhs => directIdents lhs ++ collectExprList lhs ++ collectExprList rhs
  | .rangeStmt key value x body =>
      directIdents (key.toList) ++ directIdents (value.toList)
        ++ collectExprList (key.toList) ++ collectExprList (value.toList)
        ++ collectExpr x ++ collectStmtList body
  | .typeSwitch sw body =>
      (match sw with | .assign lhs _ => directIdents lhs | _ => [])
        ++ collectStmt sw ++ collectStmtList body
  | .exprStmt e => collectExpr e
  | .ret results => collectExprList results
def collectStmtList : List GoStmt → List String
  | [] => []
  | s :: ss => collectStmt s ++ collectStmtList ss
end

/-- Names a `GenDecl` contributes directly (the `ast.GenDecl` case of the
type switch): `ValueSpec` names under `VAR`/`CONST`, `TypeSpec` names under
`TYPE`. -/
def collectGenDirect (tok : GoSpecTok) (specs : List GoSpec) : List String :=
  match tok with
  | .varTok | .constTok =>
      specs.flatMap (fun s => match s with | .valueSpec ns _ => ns | _ => [])
  | .typeTok =>
      specs.flatMap (fun s => match s with | .typeSpec n _ => [n] | _ => [])
  | .importTok => []

def collectSpec : GoSpec → List String
  | .valueSpec _ values => collectExprList values
  | .typeSpec _ t => collectExpr t

def collectDecl : GoDecl → List String
  | .genDecl tok specs => collectGenDirect tok specs ++ specs.flatMap collectSpec
  | .funcDecl name recv params results body =>
      [name] ++ (recv.getD []).flatMap GoField.names
        ++ params.flatMap GoField.names ++ results.flatMap GoField.names
        ++ collectFieldList (recv.getD []) ++ collectFieldList params
        ++ collectFieldList results ++ collectStmtList body

/-- `CollectAllIdentifiers`: every potentially conflicting bound name in all
files, plus every existing written import alias. -/
def collectAllIdentifiers (files : List GoFile) : List String :=
  files.flatMap (fun f => f.decls.flatMap collectDecl ++ f.imports.filterMap GoImportSpec.name)

/-! ### `ResolveImportConflicts` -/

/-- The fixed `standardAliases` table of `ResolveImportConflicts`. -/
def standardAliases : List (String × String) :=
  [("\"database/sql\"", "stdsql"),
   ("\"entgo.io/ent/dialect/sql\"", "entsql"),
   ("\"log\"", "stdlog"),
   ("\"entgo.io/ent\"", "entpkg")]

/-- The four bookkeeping maps of `ResolveImportConflicts` (`pathToImport`,
`pathToAlias`, `aliasToPath`, `packageNameToAlias`), as association lists in
which a fresh binding is consed to the front. -/
structure ResolveState where
  pathToImport : List (String × GoImportSpec)
  pathToAlias : List (String × String)
  aliasToPath : List (String × String)
  packageNameToAlias : List (String × String)
deriving Repr

def initResolveState : ResolveState := ⟨[], [], [], []⟩

/-- One iteration of the import loop of `ResolveImportConflicts`:
skip already-processed paths; compute the preferred alias (explicit alias,
else standard alias, else last path segment); regenerate on collision
(against identifiers and assigned aliases for implicit candidates, against
assigned aliases of other paths for explicit ones); emit the resolved
`ImportSpec` and record the bindings. -/
def resolveStep (used : List String) (st : ResolveState) (imp : GoImportSpec) :
    ResolveState :=
  let path := imp.path
  if (st.pathToImport.find? (fun q => q.1 == path)).isSome then st
  else
    let pres : String × Bool :=
      match imp.name with
      | some a => (a, true)
      | none =>
        match standardAliases.find? (fun q => q.1 == path) with
        | some q => (q.2, false)
        | none => (lastSegment path, false)
    let preferred0 := pres.1
    let hasExplicit := pres.2
    let packageName := lastSegment path
    let preferred :=
      if !hasExplicit && (used.contains preferred0 || glookup st.aliasToPath preferred0 != "") then
        generateUniqueAlias packageName used st.aliasToPath
      else if hasExplicit && (glookup st.aliasToPath preferred0 != ""
          && glookup st.aliasToPath preferred0 != path) then
        generateUniqueAlias preferred0 used st.aliasToPath
      else preferred0
    let resolved : GoImportSpec :=
      { name := if preferred != packageName || glookup standardAliases path != "" || hasExplicit
          then some preferred else none
        path := imp.path }
    { pathToImport := (path, resolved) :: st.pathToImport
      pathToAlias := (path, preferred) :: st.pathToAlias
      aliasToPath := (preferred, path) :: st.aliasToPath
      packageNameToAlias := (packageName, preferred) :: st.packageNameToAlias }

/-- The nested loop of `ResolveImportConflicts`: files in order, each
file's imports in order. -/
def resolveLoop (used : List String) : ResolveState → List GoImportSpec → ResolveState
  | st, [] => st
  | st, imp :: rest => resolveLoop used (resolveStep used st imp) rest

/-- All import specs of the group, in processing order. -/
def allImports (files : List GoFile) : List GoImportSpec :=
  files.flatMap GoFile.imports

/-- `ResolveImportConflicts` (package_detector.go): collects all identifiers,
then resolves every import path of the group to a final alias. -/
def resolveImportConflicts (files : List GoFile) : ResolveState :=
  resolveLoop (collectAllIdentifiers files) initResolveState (allImports files)

/-! ### Reference rewriting (`updateIdentifiersForDeclaration`) -/

/-- The final alias an import spec denotes: its written alias, else the last
segment of its path. -/
def finalAliasOf (path : String) (spec : GoImportSpec) : String :=
  match spec.name with
  | some n => n
  | none => lastSegment path

/-- A file's original `importPath -> alias` map (`fileImportMappings[i]` in
`MergeASTs`): the written alias, else the last path segment. -/
def fileImportMapping (f : GoFile) : List (String × String) :=
  f.imports.foldl
    (fun m imp =>
      let a := match imp.name with
        | some n => n
        | none => lastSegment imp.path
      (imp.path, a) :: m) []

/-- The original-alias to final-alias map of `updateIdentifiersForDeclaration`:
only aliases that changed are recorded. -/
def buildAliasMap (orig : List (String × String))
    (fin : List (String × GoImportSpec)) : List (String × String) :=
  orig.foldl
    (fun m pr =>
      match fin.find? (fun q => q.1 == pr.1) with
      | some q =>
        let fa := finalAliasOf pr.1 q.2
        if pr.2 != fa then (pr.2, fa) :: m else m
      | none => m) []

mutual
/-- The `ast.Inspect` rewriting pass: the leading identifier of every
selector expression whose base is a bare identifier is replaced through the
alias map; all other identifiers are untouched. -/
def rewriteExpr (am : List (String × String)) : GoExpr → GoExpr
  | .ident n => .ident n
  | .lit v => .lit v
  | .sel x f =>
    match x with
    | .ident n =>
      match am.find? (fun p => p.1 == n) with
      | some p => .sel (.ident p.2) f
      | none => .sel (.ident n) f
    | _ => .sel (rewriteExpr am x) f
  | .star x => .star (rewriteExpr am x)
  | .call fn args => .call (rewriteExpr am fn) (rewriteExprList am args)
  | .structType fields => .structType (rewriteFieldList am fields)
  | .interfaceType methods => .interfaceType (rewriteFieldList am methods)
def rewriteExprList (am : List (String × String)) : List GoExpr → List GoExpr
  | [] => []
  | e :: es => rewriteExpr am e :: rewriteExprList am es
def rewriteFieldList (am : List (String × String)) : List GoField → List GoField
  | [] => []
  | .mk ns t :: fs => .mk ns (rewriteExpr am t) :: rewriteFieldList am fs
end

mutual
def rewriteStmt (am : List (String × String)) : GoStmt → GoStmt
  | .assign lhs rhs => .assign (rewriteExprList am lhs) (rewriteExprList am rhs)
  | .rangeStmt key value x body =>
      .rangeStmt (key.map (rewriteExpr am)) (value.map (rewriteExpr am))
        (rewriteExpr am x) (rewriteStmtList am body)
  | .typeSwitch sw body => .typeSwitch (rewriteStmt am sw) (rewriteStmtList am body)
  | .exprStmt e => .exprStmt (rewriteExpr am e)
  | .ret results => .ret (rewriteExprList am results)
def rewriteStmtList (am : List (String × String)) : List GoStmt → List GoStmt
  | [] => []
  | s :: ss => rewriteStmt am s :: rewriteStmtList am ss
end

def rewriteSpec (am : List (String × String)) : GoSpec → GoSpec
  | .valueSpec ns values => .valueSpec ns (rewriteExprList am values)
  | .typeSpec n t => .typeSpec n (rewriteExpr am t)

def rewriteDecl (am : List (String × String)) : GoDecl → GoDecl
  | .genDecl tok specs => .genDecl tok (specs.map (rewriteSpec am))
  | .funcDecl name recv params results body =>
      .funcDecl name (recv.map (rewriteFieldList am)) (rewriteFieldList am params)
        (rewriteFieldList am results) (rewriteStmtList am body)

/-- `updateIdentifiersForDeclaration` (package_detector.go): build the
changed-alias map; when it is non-empty, rewrite the declaration's qualified
references (the Go code mutates the shared declaration node in place; here
the rewritten declaration value is returned). -/
def updateIdentifiersForDeclaration (decl : GoDecl) (orig : List (String × String))
    (fin : List (String × GoImportSpec)) : GoDecl :=
  let am := buildAliasMap orig fin
  if am.length > 0 then rewriteDecl am decl else decl

/-! ### Declaration signatures and `MergeASTs` -/

/-- `getTypeName`: receiver type name, resolved past pointer indirection;
`Package.Type` selectors keep both components; anything else is
`"unknown"`. -/
def getTypeName : GoExpr → String
  | .ident n => n
  | .star x => getTypeName x
  | .sel x f =>
    match x with
    | .ident p => p ++ "." ++ f
    | _ => "unknown"
  | _ => "unknown"

/-- Per-spec signature fragments of `generateDeclarationSignature`:
`TypeSpec` contributes `type:name` (for any token), `ValueSpec` contributes
`var:name` / `const:name` per bound name under `VAR` / `CONST`. -/
def specSignatures (tok : GoSpecTok) : GoSpec → List String
  | .typeSpec n _ => ["type:" ++ n]
  | .valueSpec names _ =>
    if tok == .varTok then names.map (fun n => "var:" ++ n)
    else if tok == .constTok then names.map (fun n => "const:" ++ n)
    else []

/-- `generateDeclarationSignature` (package_detector.go): `GenDecl`s join
their fragments with `","`; functions yield `func:name`, methods
`method:receiverType.name`.  The Go fallback `"unknown:%p"` embeds the node's
address and therefore never equals any other declaration's signature; it is
modelled as `none` (no collidable signature). -/
def generateDeclarationSignature : GoDecl → Option String
  | .genDecl tok specs =>
    let sigs := specs.flatMap (specSignatures tok)
    if sigs.length > 0 then some (String.intercalate "," sigs) else none
  | .funcDecl name recv _ _ _ =>
    match recv with
    | some (r :: _) => some ("method:" ++ getTypeName r.ty ++ "." ++ name)
    | _ => some ("func:" ++ name)

def isImportDecl : GoDecl → Bool
  | .genDecl tok _ => tok == .importTok
  | _ => false

/-- The merged file assembled by `MergeASTs`: package name, the sorted import
block, and the non-import declarations (in the Go output the import block is
one leading `GenDecl`; it is kept in a separate field here so `decls` is
exactly the declaration sequence excluding the import block). -/
structure MergedFile where
  pkgName : String
  imports : List GoImportSpec
  decls : List GoDecl
deriving Repr

/-- Insertion sort on strings, the embedding of `sort.Strings` (UTF-8
byte-wise order coincides with code-point order). -/
def sortInsert (s : String) : List String → List String
  | [] => [s]
  | t :: ts => if s ≤ t then s :: t :: ts else t :: sortInsert s ts

def sortStrings : List String → List String
  | [] => []
  | s :: ss => sortInsert s (sortStrings ss)

/-- The per-file declaration loop of `MergeASTs`: skips import declarations,
drops declarations whose signature was already seen, rewrites and keeps the
rest.  Returns the updated seen-set, the declarations appended to the merged
file, and the file's declarations as they stand after the call (the in-place
mutation of kept declarations made explicit). -/
def mergeDeclsFile (orig : List (String × String)) (fin : List (String × GoImportSpec)) :
    List String → List GoDecl → List String × List GoDecl × List GoDecl
  | seen, [] => (seen, [], [])
  | seen, d :: ds =>
    if isImportDecl d then
      let r := mergeDeclsFile orig fin seen ds
      (r.1, r.2.1, d :: r.2.2)
    else
      match generateDeclarationSignature d with
      | some sig =>
        if seen.contains sig then
          let r := mergeDeclsFile orig fin seen ds
          (r.1, r.2.1, d :: r.2.2)
        else
          let d' := if orig.length > 0 then updateIdentifiersForDeclaration d orig fin else d
          let r := mergeDeclsFile orig fin (sig :: seen) ds
          (r.1, d' :: r.2.1, d' :: r.2.2)
      | none =>
        let d' := if orig.length > 0 then updateIdentifiersForDeclaration d orig fin else d
        let r := mergeDeclsFile orig fin seen ds
        (r.1, d' :: r.2.1, d' :: r.2.2)

/-- The file loop of `MergeASTs`: threads the seen-signature set through the
files in order. -/
def mergeFilesLoop (fin : List (String × GoImportSpec)) :
    List String → List GoFile → List String × List GoDecl × List GoFile
  | seen, [] => (seen, [], [])
  | seen, f :: fs =>
    let r := mergeDeclsFile (fileImportMapping f) fin seen f.decls
    let rest := mergeFilesLoop fin r.1 fs
    (rest.1, r.2.1 ++ rest.2.1, { f with decls := r.2.2 } :: rest.2.2)

/-- `MergeASTs` (package_detector.go), with the in-place mutation of input
declarations made explicit: returns the merged file together with the
post-call contents of the input files.  Fails exactly on an empty input list
or a package-name mismatch against the first file. -/
def mergeASTsFull (files : List GoFile) : Except String (MergedFile × List GoFile) :=
  match files with
  | [] => .error "no files to merge"
  | base :: _ =>
    let packageName := base.pkgName
    if files.any (fun f => f.pkgName != packageName) then
      .error "package name mismatch"
    else
      let st := resolveImportConflicts files
      let importPaths := sortStrings (st.pathToImport.map (fun q => q.1))
      let imports := importPaths.filterMap
        (fun p => (st.pathToImport.find? (fun q => q.1 == p)).map (fun q => q.2))
      let r := mergeFilesLoop st.pathToImport [] files
      .ok ({ pkgName := packageName, imports := imports, decls := r.2.1 }, r.2.2)

/-- `MergeASTs` as observed by its caller: the merged file alone. -/
def mergeASTs (files : List GoFile) : Except String MergedFile :=
  (mergeASTsFull files).map (fun pr => pr.1)

/-! ### The extension wiring (`extension.go`) -/

/-- The `Extension` configuration record. -/
structure Extension where
  verboseLogging : Bool
  dryRun : Bool
  maxFileSize : Int
deriving Repr, DecidableEq

/-- The three environment variables `NewExtension` consults, by value. -/
structure SquishEnv where
  disableSquishing : String
  verboseVar : String
  dryRunVar : String
deriving Repr

/-- `NewExtension` (extension.go): defaults, functional options, then
environment overrides; `DISABLE_ENT_SQUISHING=true` yields the zero-value
no-op extension. -/
def newExtension (env : SquishEnv) (opts : List (Extension → Except String Extension)) :
    Except String Extension :=
  let base : Extension := ⟨false, false, 100 * 1024 * 1024⟩
  match opts.foldl
      (fun (acc : Except String Extension) opt =>
        match acc with
        | .error e => .error e
        | .ok ex => opt ex) (Except.ok base) with
  | .error e => .error e
  | .ok ex =>
    if env.disableSquishing == "true" then .ok ⟨false, false, 0⟩
    else
      let ex := if env.verboseVar == "true" then { ex with verboseLogging := true } else ex
      let ex := if env.dryRunVar == "true" then { ex with dryRun := true } else ex
      .ok ex

def withVerboseLogging (enabled : Bool) : Extension → Except String Extension :=
  fun e => .ok { e with verboseLogging := enabled }

def withDryRun (enabled : Bool) : Extension → Except String Extension :=
  fun e => .ok { e with dryRun := enabled }

def withMaxFileSize (size : Int) : Extension → Except String Extension :=
  fun e => .ok { e with maxFileSize := size }

/-- `Extension.Hooks` (extension.go): the empty hook list when both verbose
logging and dry-run are disabled, otherwise the single squishing hook (hooks
are counted, their body is outside the embedded core). -/
def extensionHooks (e : Extension) : List Unit :=
  if e.verboseLogging == false && e.dryRun == false then []
  else [()]

/-! ### Spec-side formulations used to state the claims -/

/-- The identifier pattern named by the spec: `[A-Za-z_][A-Za-z0-9_]*`. -/
def matchesIdentPattern (s : String) : Bool :=
  match s.data with
  | [] => false
  | c :: rest => isIdentStart c && rest.all isIdentChar

/-- `SanitizeIdentifier` as the spec words it: empty, `"_"`, `"."` give
`"pkg"`; keywords get the `"pkg"` suffix; matches of the identifier pattern
are unchanged; everything else gives `"pkg"`. -/
def specSanitize (name : String) : String :=
  if name == "" || name == "_" || name == "." then "pkg"
  else if goKeywords.contains name then name ++ "pkg"
  else if matchesIdentPattern name then name else "pkg"

/-- The candidate order the spec gives for `GenerateUniqueAlias`: the
sanitized base alone when sanitization changed it, then `base ++ "pkg"`,
then `base ++ "pkg" ++ N` for `N = 2, 3, ..., 1000`. -/
def specAliasCandidates (base : String) : List String :=
  let sb := sanitizeIdentifier base
  (if sb != base then [sb] else [])
    ++ (sb ++ "pkg") :: (List.range 999).map (fun i => sb ++ "pkg" ++ toString (2 + i))

/-- The preferred-alias precedence of `ResolveImportConflicts` for a
first-seen import: explicit written alias, else the standard-alias table
entry for the path, else the last path segment. -/
def preferredCandidate (imp : GoImportSpec) : String :=
  match imp.name with
  | some a => a
  | none =>
    match standardAliases.find? (fun q => q.1 == imp.path) with
    | some q => q.2
    | none => lastSegment imp.path

/-- The collision condition of the explicit-alias branch:
`aliasToPath[alias] != "" && aliasToPath[alias] != path`. -/
def explicitCollides (st : ResolveState) (a path : String) : Bool :=
  glookup st.aliasToPath a != "" && glookup st.aliasToPath a != path

/-- The alias `resolveStep` assigns to a first-seen path, written as a
direct case split (proven equal to the branch logic of `resolveStep`). -/
def assignedAlias (used : List String) (st : ResolveState) (imp : GoImportSpec) : String :=
  match imp.name with
  | some a =>
    if explicitCollides st a imp.path then generateUniqueAlias a used st.aliasToPath
    else a
  | none =>
    let p0 := preferredCandidate imp
    if used.contains p0 || glookup st.aliasToPath p0 != "" then
      generateUniqueAlias (lastSegment imp.path) used st.aliasToPath
    else p0

/-- The fresh-path branch of `resolveStep`, written as one record update
(proven equal to `resolveStep` when the path has not been seen). -/
def resolveStepFresh (used : List String) (st : ResolveState) (imp : GoImportSpec) :
    ResolveState :=
  let preferred := assignedAlias used st imp
  let packageName := lastSegment imp.path
  { pathToImport := (imp.path,
      { name := if preferred != packageName || glookup standardAliases imp.path != ""
            || imp.name.isSome then some preferred else none
        path := imp.path }) :: st.pathToImport
    pathToAlias := (imp.path, preferred) :: st.pathToAlias
    aliasToPath := (preferred, imp.path) :: st.aliasToPath
    packageNameToAlias := (packageName, preferred) :: st.packageNameToAlias }

/-- True when the step, should it call `GenerateUniqueAlias`, receives back
an alias that is free (not a collected identifier, not already assigned).
This holds for every call that does not exhaust the 1000-attempt cap. -/
def resolveStepOk (used : List String) (st : ResolveState) (imp : GoImportSpec) : Bool :=
  if (st.pathToImport.find? (fun q => q.1 == imp.path)).isSome then true
  else
    match imp.name with
    | some a =>
      if explicitCollides st a imp.path then
        isFreeAlias used st.aliasToPath (generateUniqueAlias a used st.aliasToPath)
      else true
    | none =>
      let p0 := preferredCandidate imp
      if used.contains p0 || glookup st.aliasToPath p0 != "" then
        isFreeAlias used st.aliasToPath (generateUniqueAlias (lastSegment imp.path) used st.aliasToPath)
      else true

def resolveRunOkAux (used : List String) : ResolveState → List GoImportSpec → Bool
  | _, [] => true
  | st, imp :: rest =>
      resolveStepOk used st imp && resolveRunOkAux used (resolveStep used st imp) rest

/-- Every `GenerateUniqueAlias` call made while resolving this unit group
returns a free alias (no call exhausts the attempt cap). -/
def resolveRunOk (files : List GoFile) : Bool :=
  resolveRunOkAux (collectAllIdentifiers files) initResolveState (allImports files)

/-- Every import path literal of the group is non-empty (the parser
guarantees this: a path literal includes its quotes). -/
def pathsNonempty (files : List GoFile) : Bool :=
  (allImports files).all (fun imp => imp.path != "")

/-- The inductive invariant of the resolver loop: the path and alias books
stay aligned, paths are recorded once, recorded paths are non-empty, final
aliases are pairwise distinct, and an alias that is also a collected
identifier can only have been copied from a written explicit alias. -/
structure ResolveInv (used : List String) (processed : List GoImportSpec)
    (st : ResolveState) : Prop where
  keysEq : st.pathToImport.map Prod.fst = st.pathToAlias.map Prod.fst
  keysNodup : (st.pathToAlias.map Prod.fst).Nodup
  aliasSwap : st.aliasToPath = st.pathToAlias.map (fun pr => (pr.2, pr.1))
  pathsNe : ∀ pr ∈ st.pathToAlias, pr.1 ≠ ""
  valuesNodup : (st.pathToAlias.map Prod.snd).Nodup
  explicitOnly : ∀ pr ∈ st.pathToAlias, pr.2 ∈ used →
      ∃ imp ∈ processed, imp.path = pr.1 ∧ imp.name = some pr.2

/-! ### Helpers for the deduplication count -/

/-- The seen-signature set as `MergeASTs` builds it, folded over a signature
list. -/
def dedupFoldAux : List String → List String → List String
  | seen, [] => seen
  | seen, s :: ss =>
    if seen.contains s then dedupFoldAux seen ss else dedupFoldAux (s :: seen) ss

/-- The signatures of the non-import declarations of one declaration list,
in order. -/
def nonImportSigs (ds : List GoDecl) : List String :=
  (ds.filter (fun d => !isImportDecl d)).filterMap generateDeclarationSignature

def allNonImportDecls (files : List GoFile) : List GoDecl :=
  files.flatMap (fun f => f.decls.filter (fun d => !isImportDecl d))

/-- All composite signatures of the group's non-import declarations. -/
def allSigs (files : List GoFile) : List String :=
  (allNonImportDecls files).filterMap generateDeclarationSignature

/-- Every non-import declaration of the group has a composite signature
(no empty declaration groups, which the source tags with a pointer-unique
fallback signature). -/
def allSigsTotal (files : List GoFile) : Bool :=
  (allNonImportDecls files).all (fun d => (generateDeclarationSignature d).isSome)

/-- Modelled from the spec: the list of *independent* per-name signatures the
claim attributes to a declaration ("multi-name groups expanding to multiple
independent signatures"), for comparison with the implementation's composite
comma-joined signature. -/
def claimDeclSignatures : GoDecl → List String
  | .genDecl tok specs => specs.flatMap (specSignatures tok)
  | .funcDecl name recv _ _ _ =>
    match recv with
    | some (r :: _) => ["method:" ++ getTypeName r.ty ++ "." ++ name]
    | _ => ["func:" ++ name]

/-- No import of any unit changes its alias in the merged output: every
per-unit changed-alias map is empty. -/
def noAliasChanges (files : List GoFile) : Bool :=
  files.all (fun f =>
    (buildAliasMap (fileImportMapping f) (resolveImportConflicts files).pathToImport).isEmpty)

/-! ### Qualified-reference observer

The leading identifiers of selector expressions (the `alias.member` heads),
used to exhibit the in-place rewriting of input declarations. -/

mutual
def selHeadsExpr : GoExpr → List String
  | .ident _ => []
  | .lit _ => []
  | .sel x _ => (match x with | .ident n => [n] | _ => []) ++ selHeadsExpr x
  | .star x => selHeadsExpr x
  | .call fn args => selHeadsExpr fn ++ selHeadsExprList args
  | .structType fields => selHeadsFieldList fields
  | .interfaceType methods => selHeadsFieldList methods
def selHeadsExprList : List GoExpr → List String
  | [] => []
  | e :: es => selHeadsExpr e ++ selHeadsExprList es
def selHeadsFieldList : List GoField → List String
  | [] => []
  | .mk _ t :: fs => selHeadsExpr t ++ selHeadsFieldList fs
end

mutual
def selHeadsStmt : GoStmt → List String
  | .assign lhs rhs => selHeadsExprList lhs ++ selHeadsExprList rhs
  | .rangeStmt key value x body =>
      selHeadsExprList key.toList ++ selHeadsExprList value.toList
        ++ selHeadsExpr x ++ selHeadsStmtList body
  | .typeSwitch sw body => selHeadsStmt sw ++ selHeadsStmtList body
  | .exprStmt e => selHeadsExpr e
  | .ret results => selHeadsExprList results
def selHeadsStmtList : List GoStmt → List String
  | [] => []
  | s :: ss => selHeadsStmt s ++ selHeadsStmtList ss
end

def selHeadsSpec : GoSpec → List String
  | .valueSpec _ values => selHeadsExprList values
  | .typeSpec _ t => selHeadsExpr t

def selHeadsDecl : GoDecl → List String
  | .genDecl _ specs => specs.flatMap selHeadsSpec
  | .funcDecl _ recv params results body =>
      selHeadsFieldList (recv.getD []) ++ selHeadsFieldList params
        ++ selHeadsFieldList results ++ selHeadsStmtList body

def selHeadsFile (f : GoFile) : List String :=
  f.decls.flatMap selHeadsDecl

/-! ### Concrete example inputs -/

/-- One unit whose single import carries the written alias `myalias`. -/
def unitExplicitAlias : GoFile :=
  { pkgName := "test"
    imports := [⟨some "myalias", "\"errors\""⟩]
    decls := [.funcDecl "test" none [] []
      [.ret [.call (.sel (.ident "myalias") "New") [.lit "test"]]]] }

/-- One unit importing `"errors"` without an alias and also binding a local
`errors`, the collision scenario of the test suite. -/
def unitErrCollision : GoFile :=
  { pkgName := "test"
    imports := [⟨none, "\"errors\""⟩]
    decls := [.funcDecl "foo" none [] []
      [.assign [.ident "errors"] [.lit "test"],
       .ret [.call (.sel (.ident "errors") "New") [.lit "something"]]]] }

/-- One unit with two dot-imports of different paths. -/
def unitTwoDots : GoFile :=
  ⟨"test", [⟨some ".", "\"a\""⟩, ⟨some ".", "\"b\""⟩], []⟩

/-- One unit importing a path whose last segment `my-pkg` is not a valid
identifier, with no local identifiers at all. -/
def unitDashPkg : GoFile :=
  ⟨"test", [⟨none, "\"github.com/x/my-pkg\""⟩], []⟩

/-- `var a, b` in one unit. -/
def unitVarAB : GoFile :=
  ⟨"test", [], [.genDecl .varTok [.valueSpec ["a", "b"] []]]⟩

/-- `var a, c` in a second unit. -/
def unitVarAC : GoFile :=
  ⟨"test", [], [.genDecl .varTok [.valueSpec ["a", "c"] []]]⟩

/-- A `type User` declaration unit (used twice to exercise deduplication). -/
def unitTypeUser : GoFile :=
  ⟨"test", [], [.genDecl .typeTok [.typeSpec "User" (.structType [])]]⟩

/-- The merged output of two copies of `unitTypeUser`. -/
def mergedTypeUser : MergedFile :=
  ⟨"test", [], [.genDecl .typeTok [.typeSpec "User" (.structType [])]]⟩

/-- A unit importing `"fmt"` with no collision anywhere. -/
def unitFmtOnly : GoFile :=
  ⟨"test", [⟨none, "\"fmt\""⟩],
   [.funcDecl "hello" none [] []
     [.exprStmt (.call (.sel (.ident "fmt") "Println") [.lit "hello"])]]⟩

/-- The merged output of `[unitFmtOnly]`. -/
def mergedFmtOnly : MergedFile :=
  ⟨"test", [⟨none, "\"fmt\""⟩],
   [.funcDecl "hello" none [] []
     [.exprStmt (.call (.sel (.ident "fmt") "Println") [.lit "hello"])]]⟩

def unitAlpha : GoFile := ⟨"alpha", [], []⟩

def unitBeta : GoFile := ⟨"beta", [], []⟩

/-- Two empty units sharing the package name `p`. -/
def unitP1 : GoFile := ⟨"p", [], []⟩

def unitP2 : GoFile := ⟨"p", [], []⟩

/-- The merged output of `[unitP1, unitP2]`. -/
def mergedP : MergedFile := ⟨"p", [], []⟩

lemma genFrom_eq_find (base : String) (used : List String)
    (assigned : List (String × String)) :
    ∀ (n c : Nat), c + n = 1001 →
    genFrom base used assigned n c =
      (((List.range n).map (fun i => base ++ "pkg" ++ toString (c + i))).find?
          (isFreeAlias used assigned)).getD ("pkg" ++ toString (assigned.length + 1)) := by
  intro n
  induction n with
  | zero => intro c h; simp [genFrom]
  | succ n ih =>
    intro c h
    have hlist : ((List.range (n + 1)).map
        (fun i => base ++ "pkg" ++ toString (c + i)))
        = (base ++ "pkg" ++ toString c) ::
          ((List.range n).map (fun i => base ++ "pkg" ++ toString ((c + 1) + i))) := by
      rw [List.range_succ_eq_map, List.map_cons, List.map_map]
      refine congrArg₂ List.cons (by simp) ?_
      apply List.map_congr_left
      intro i _
      simp only [Function.comp_apply, Nat.succ_eq_add_one]
      have harith : c + (i + 1) = c + 1 + i := by omega
      rw [harith]
    rw [hlist]
    by_cases hfree : isFreeAlias used assigned (base ++ "pkg" ++ toString c) = true
    · simp [genFrom, hfree, List.find?_cons]
    · have hfree' : isFreeAlias used assigned (base ++ "pkg" ++ toString c) = false :=
        Bool.eq_false_iff.mpr hfree
      by_cases hcap : c + 1 > 1000
      · have hn : n = 0 := by omega
        subst hn
        simp [genFrom, hfree', hcap, List.find?_cons]
      · have hrec := ih (c + 1) (by omega)
        simp [genFrom, hfree', hcap, List.find?_cons, hrec]

lemma sanitizeIdentifier_eq_spec (name : String) :
    sanitizeIdentifier name = specSanitize name := by
  cases h : name.data <;>
    simp [sanitizeIdentifier, specSanitize, matchesIdentPattern, h]

lemma generateUniqueAlias_eq_spec (b : String) (u : List String)
    (a : List (String × String)) :
    generateUniqueAlias b u a
      = ((specAliasCandidates b).find? (isFreeAlias u a)).getD
          ("pkg" ++ toString (a.length + 1)) := by
  have hnums := genFrom_eq_find (sanitizeIdentifier b) u a 999 2 (by omega)
  by_cases hch : (sanitizeIdentifier b != b) = true
  · by_cases hfree : isFreeAlias u a (sanitizeIdentifier b) = true
    · simp [generateUniqueAlias, specAliasCandidates, hch, hfree, List.find?_cons]
    · have hfree' : isFreeAlias u a (sanitizeIdentifier b) = false :=
        Bool.eq_false_iff.mpr hfree
      by_cases hfp : isFreeAlias u a (sanitizeIdentifier b ++ "pkg") = true
      · simp [generateUniqueAlias, specAliasCandidates, hch, hfree', hfp, List.find?_cons]
      · have hfp' : isFreeAlias u a (sanitizeIdentifier b ++ "pkg") = false :=
          Bool.eq_false_iff.mpr hfp
        simp [generateUniqueAlias, specAliasCandidates, hch, hfree', hfp',
          List.find?_cons, hnums]
  · have hb : sanitizeIdentifier b = b := by
      have := Bool.not_eq_true _ ▸ hch
      simpa [bne] using hch
    by_cases hfp : isFreeAlias u a (b ++ "pkg") = true
    · simp [generateUniqueAlias, specAliasCandidates, hb, hfp, List.find?_cons]
    · have hfp' : isFreeAlias u a (b ++ "pkg") = false :=
        Bool.eq_false_iff.mpr hfp
      rw [hb] at hnums
      simp [generateUniqueAlias, specAliasCandidates, hb, hfp', List.find?_cons, hnums]

/-! ### Claim theorems -/

/-- C7: `GenerateUniqueAlias(base, used, assigned)` returns the first
candidate — the sanitized base alone when sanitization changed it, then
`base ++ "pkg"`, then `base ++ "pkg" ++ N` for `N = 2, 3, ...` — that is in
neither the used-identifier set nor the assigned-alias map, and after the
1000-attempt cap falls back to a numbered alias derived from the count of
already-assigned aliases; `SanitizeIdentifier` maps empty, `"_"` and `"."`
to `"pkg"`, appends `"pkg"` to Go keywords, keeps matches of
`[A-Za-z_][A-Za-z0-9_]*` unchanged, and maps everything else to `"pkg"`. -/
theorem c7_generate_and_sanitize (b name : String) (u : List String)
    (a : List (String × String)) :
    generateUniqueAlias b u a
      = ((specAliasCandidates b).find? (isFreeAlias u a)).getD
          ("pkg" ++ toString (a.length + 1))
    ∧ sanitizeIdentifier name = specSanitize name :=
  ⟨generateUniqueAlias_eq_spec b u a, sanitizeIdentifier_eq_spec name⟩

/-- C9: `ResolveImportConflicts` is deterministic — two runs on the same
ordered unit list give the identical state, and in particular assign every
path the same final alias.  (In the embedding the resolver is a pure
function of the ordered unit list: the Go loop iterates only over slices,
never over a map, so no iteration-order nondeterminism enters.) -/
theorem c9_resolve_deterministic (files : List GoFile) :
    resolveImportConflicts files = resolveImportConflicts files
    ∧ ∀ p : String,
        glookup (resolveImportConflicts files).pathToAlias p
          = glookup (resolveImportConflicts files).pathToAlias p :=
  ⟨rfl, fun _ => rfl⟩

/-- C4: a default-configured extension (verbose logging and dry-run both
disabled, no environment overrides) has an empty hook list, so no squishing
runs at all; the hook (and with it the merge pipeline) exists exactly when
verbose logging or dry-run is enabled. -/
theorem c4_default_extension_no_hooks :
    newExtension ⟨"", "", ""⟩ [] = Except.ok ⟨false, false, 100 * 1024 * 1024⟩
    ∧ extensionHooks ⟨false, false, 100 * 1024 * 1024⟩ = []
    ∧ ∀ e : Extension,
        extensionHooks e = [] ↔ (e.verboseLogging = false ∧ e.dryRun = false) := by
  refine ⟨rfl, rfl, ?_⟩
  intro e
  cases e with
  | mk v d s => cases v <;> cases d <;> simp [extensionHooks]

/-- C10: for a non-empty unit list, `MergeASTs` fails exactly when some
unit's package name differs from the first unit's; on success the merged
unit carries the first unit's package name. -/
theorem c10_merge_namespace_check (first : GoFile) (rest : List GoFile) :
    ((∃ e, mergeASTs (first :: rest) = Except.error e)
        ↔ ∃ f ∈ first :: rest, f.pkgName ≠ first.pkgName)
    ∧ ∀ m, mergeASTs (first :: rest) = Except.ok m → m.pkgName = first.pkgName := by
  by_cases hany : ((first :: rest).any (fun f => f.pkgName != first.pkgName)) = true
  · constructor
    · constructor
      · intro _
        obtain ⟨f, hf, hne⟩ := List.any_eq_true.mp hany
        exact ⟨f, hf, by simpa using hne⟩
      · intro _
        refine ⟨"package name mismatch", ?_⟩
        simp [mergeASTs, mergeASTsFull, hany, Except.map]
    · intro m hm
      simp [mergeASTs, mergeASTsFull, hany, Except.map] at hm
  · have hok : mergeASTs (first :: rest)
        = Except.ok { pkgName := first.pkgName
                      imports :=
                        (sortStrings ((resolveImportConflicts (first :: rest)).pathToImport.map
                            (fun q => q.1))).filterMap
                          (fun p => ((resolveImportConflicts (first :: rest)).pathToImport.find?
                              (fun q => q.1 == p)).map (fun q => q.2))
                      decls := (mergeFilesLoop
                          (resolveImportConflicts (first :: rest)).pathToImport []
                          (first :: rest)).2.1 } := by
      simp [mergeASTs, mergeASTsFull, hany, Except.map]
    constructor
    · constructor
      · intro ⟨e, he⟩
        rw [hok] at he
        exact absurd he (by simp)
      · intro ⟨f, hf, hne⟩
        exact absurd (List.any_eq_true.mpr ⟨f, hf, by simpa using hne⟩) hany
    · intro m hm
      rw [hok] at hm
      have := (Except.ok.injEq _ _).mp hm
      rw [← this]

/-- Witness for C10 at concrete inputs: mismatching package names produce an
error, and agreeing package names produce a merged unit carrying them. -/
theorem c10_witness :
    (∃ e, mergeASTs [unitAlpha, unitBeta] = Except.error e)
    ∧ mergedP.pkgName = unitP1.pkgName := by
  constructor
  · exact (c10_merge_namespace_check unitAlpha [unitBeta]).1.mpr
      ⟨unitBeta, by simp, by decide⟩
  · exact (c10_merge_namespace_check unitP1 [unitP2]).2 mergedP rfl

/-! ### Resolver invariant lemmas -/

lemma find?_fst_isSome {α : Type} (l : List (String × α)) (k : String) :
    (l.find? (fun q => q.1 == k)).isSome = true ↔ k ∈ l.map Prod.fst := by
  rw [List.find?_isSome]
  constructor
  · rintro ⟨x, hx, hpx⟩
    exact List.mem_map.mpr ⟨x, hx, (by simpa using hpx : x.1 = k)⟩
  · intro hm
    obtain ⟨x, hx, hk⟩ := List.mem_map.mp hm
    exact ⟨x, hx, by simp [hk]⟩

lemma not_key_of_glookup_empty (m : List (String × String)) (k : String)
    (hv : ∀ pr ∈ m, pr.2 ≠ "") (h : glookup m k = "") : k ∉ m.map Prod.fst := by
  intro hk
  unfold glookup at h
  cases hf : m.find? (fun p => p.1 == k) with
  | none =>
    rw [List.find?_eq_none] at hf
    obtain ⟨pr, hpr, hfst⟩ := List.mem_map.mp hk
    exact hf pr hpr (by simp [hfst])
  | some q =>
    rw [hf] at h
    exact hv q (List.mem_of_find?_eq_some hf) h

lemma glookup_mem (m : List (String × String)) (k v : String) (hv : v ≠ "")
    (h : glookup m k = v) : (k, v) ∈ m := by
  unfold glookup at h
  cases hf : m.find? (fun p => p.1 == k) with
  | none => rw [hf] at h; exact absurd h.symm hv
  | some q =>
    rw [hf] at h
    have hq := List.mem_of_find?_eq_some hf
    have hk : q.1 = k := by simpa using List.find?_some hf
    have hqe : q = (k, v) := by
      cases q with
      | mk q1 q2 => simp_all
    rw [← hqe]
    exact hq

lemma resolveStep_eq (used : List String) (st : ResolveState) (imp : GoImportSpec)
    (hfresh : (st.pathToImport.find? (fun q => q.1 == imp.path)).isSome = false) :
    resolveStep used st imp = resolveStepFresh used st imp := by
  cases himp : imp.name with
  | some a =>
    simp [resolveStep, resolveStepFresh, assignedAlias, explicitCollides, hfresh, himp]
  | none =>
    cases hstd : standardAliases.find? (fun q => q.1 == imp.path) with
    | some q =>
      simp [resolveStep, resolveStepFresh, assignedAlias, preferredCandidate, hfresh, himp, hstd]
    | none =>
      simp [resolveStep, resolveStepFresh, assignedAlias, preferredCandidate, hfresh, himp, hstd]

lemma assignedAlias_spec (used : List String) (processed : List GoImportSpec)
    (st : ResolveState) (imp : GoImportSpec)
    (hfresh : (st.pathToImport.find? (fun q => q.1 == imp.path)).isSome = false)
    (hok : resolveStepOk used st imp = true)
    (hinv : ResolveInv used processed st)
    (hpath : imp.path ≠ "") :
    glookup st.aliasToPath (assignedAlias used st imp) = ""
    ∧ (assignedAlias used st imp ∈ used → imp.name = some (assignedAlias used st imp)) := by
  rw [resolveStepOk, hfresh] at hok
  simp only [Bool.false_eq_true, if_false] at hok
  cases himp : imp.name with
  | some a =>
    simp only [himp] at hok
    by_cases hc : explicitCollides st a imp.path = true
    · simp only [hc, if_true] at hok
      rw [isFreeAlias, Bool.and_eq_true] at hok
      obtain ⟨hnu, hgl⟩ := hok
      refine ⟨?_, ?_⟩
      · simp only [assignedAlias, himp, hc, if_true]
        exact beq_iff_eq.mp hgl
      · intro hmem
        exfalso
        simp only [assignedAlias, himp, hc, if_true] at hmem
        have hcon := List.elem_iff.mpr hmem
        rw [Bool.not_eq_true'] at hnu
        rw [List.contains] at hnu
        rw [hnu] at hcon
        exact absurd hcon (by simp)
    · have hcf : explicitCollides st a imp.path = false := Bool.eq_false_iff.mpr hc
      by_cases hgl : glookup st.aliasToPath a = ""
      · exact ⟨by simp [assignedAlias, himp, hcf, hgl],
          fun _ => by simp [assignedAlias, himp, hcf]⟩
      · have hglp : glookup st.aliasToPath a = imp.path := by
          by_contra hne
          have hcc : explicitCollides st a imp.path = true := by
            simp only [explicitCollides, Bool.and_eq_true, bne_iff_ne, ne_eq]
            exact ⟨hgl, hne⟩
          rw [hcc] at hcf
          exact absurd hcf (by simp)
        exfalso
        have hmem := glookup_mem st.aliasToPath a imp.path hpath hglp
        rw [hinv.aliasSwap] at hmem
        obtain ⟨q, hq, heq⟩ := List.mem_map.mp hmem
        have hq1 : q.1 = imp.path := by
          cases q with
          | mk q1 q2 => simp_all
        have hkmem : imp.path ∈ st.pathToAlias.map Prod.fst :=
          List.mem_map.mpr ⟨q, hq, hq1⟩
        rw [← hinv.keysEq] at hkmem
        have hsome := (find?_fst_isSome st.pathToImport imp.path).mpr hkmem
        rw [hsome] at hfresh
        exact absurd hfresh (by simp)
  | none =>
    simp only [himp] at hok
    by_cases hc : (used.contains (preferredCandidate imp)
        || glookup st.aliasToPath (preferredCandidate imp) != "") = true
    · simp only [hc, if_true] at hok
      rw [isFreeAlias, Bool.and_eq_true] at hok
      obtain ⟨hnu, hgl⟩ := hok
      refine ⟨?_, ?_⟩
      · simp only [assignedAlias, himp, hc, if_true]
        exact beq_iff_eq.mp hgl
      · intro hmem
        exfalso
        simp only [assignedAlias, himp, hc, if_true] at hmem
        have hcon := List.elem_iff.mpr hmem
        rw [Bool.not_eq_true'] at hnu
        rw [List.contains] at hnu
        rw [hnu] at hcon
        exact absurd hcon (by simp)
    · have hcf := Bool.eq_false_iff.mpr hc
      rw [Bool.or_eq_false_iff] at hcf
      obtain ⟨hcf1, hcf2⟩ := hcf
      have hcf' : (used.contains (preferredCandidate imp)
          || glookup st.aliasToPath (preferredCandidate imp) != "") = false := by
        rw [hcf1, hcf2]
        rfl
      refine ⟨?_, ?_⟩
      · simp only [assignedAlias, himp, hcf', if_false, Bool.false_eq_true]
        simpa [bne] using hcf2
      · intro hmem
        exfalso
        simp only [assignedAlias, himp, hcf', if_false, Bool.false_eq_true] at hmem
        have hcon := List.elem_iff.mpr hmem
        rw [List.contains] at hcf1
        rw [hcf1] at hcon
        exact absurd hcon (by simp)

lemma aliasKeys_eq_aliasValues (st : ResolveState) (used : List String)
    (processed : List GoImportSpec) (hinv : ResolveInv used processed st) :
    st.aliasToPath.map Prod.fst = st.pathToAlias.map Prod.snd := by
  rw [hinv.aliasSwap, List.map_map]
  rfl

lemma resolveStep_inv (used : List String) (processed : List GoImportSpec)
    (st : ResolveState) (imp : GoImportSpec)
    (hpath : imp.path ≠ "")
    (hok : resolveStepOk used st imp = true)
    (hinv : ResolveInv used processed st) :
    ResolveInv used (processed ++ [imp]) (resolveStep used st imp) := by
  by_cases hfresh : (st.pathToImport.find? (fun q => q.1 == imp.path)).isSome = true
  · have hstep : resolveStep used st imp = st := by
      rw [resolveStep, hfresh]
      simp
    rw [hstep]
    exact { hinv with
      explicitOnly := fun pr hpr hmem =>
        (hinv.explicitOnly pr hpr hmem).imp
          (fun i hi => ⟨List.mem_append_left _ hi.1, hi.2⟩) }
  · have hf : (st.pathToImport.find? (fun q => q.1 == imp.path)).isSome = false :=
      Bool.eq_false_iff.mpr hfresh
    rw [resolveStep_eq used st imp hf]
    obtain ⟨hgl, hexp⟩ := assignedAlias_spec used processed st imp hf hok hinv hpath
    have hpnotin : imp.path ∉ st.pathToAlias.map Prod.fst := by
      intro hm
      rw [← hinv.keysEq] at hm
      have hsome := (find?_fst_isSome st.pathToImport imp.path).mpr hm
      rw [hsome] at hf
      exact absurd hf (by simp)
    have havals : ∀ pr ∈ st.aliasToPath, pr.2 ≠ "" := by
      intro pr hpr
      rw [hinv.aliasSwap] at hpr
      obtain ⟨q, hq, heq⟩ := List.mem_map.mp hpr
      have : pr.2 = q.1 := by
        cases q with
        | mk q1 q2 => cases pr with
          | mk p1 p2 => simp_all
      rw [this]
      exact hinv.pathsNe q hq
    have hanotin : assignedAlias used st imp ∉ st.pathToAlias.map Prod.snd := by
      rw [← aliasKeys_eq_aliasValues st used processed hinv]
      exact not_key_of_glookup_empty st.aliasToPath (assignedAlias used st imp) havals hgl
    refine { keysEq := ?_, keysNodup := ?_, aliasSwap := ?_, pathsNe := ?_,
             valuesNodup := ?_, explicitOnly := ?_ }
    · simp [resolveStepFresh, hinv.keysEq]
    · simp only [resolveStepFresh, List.map_cons, List.nodup_cons]
      exact ⟨hpnotin, hinv.keysNodup⟩
    · simp [resolveStepFresh, hinv.aliasSwap]
    · intro pr hpr
      simp only [resolveStepFresh, List.mem_cons] at hpr
      rcases hpr with hpr | hpr
      · rw [hpr]
        exact hpath
      · exact hinv.pathsNe pr hpr
    · simp only [resolveStepFresh, List.map_cons, List.nodup_cons]
      exact ⟨hanotin, hinv.valuesNodup⟩
    · intro pr hpr hmem
      simp only [resolveStepFresh, List.mem_cons] at hpr
      rcases hpr with hpr | hpr
      · subst hpr
        simp only at hmem
        have hname := hexp hmem
        exact ⟨imp, List.mem_append_right _ (by simp), rfl, hname.symm ▸ rfl⟩
      · exact (hinv.explicitOnly pr hpr hmem).imp
          (fun i hi => ⟨List.mem_append_left _ hi.1, hi.2⟩)

lemma resolveLoop_inv (used : List String) :
    ∀ (imps processed : List GoImportSpec) (st : ResolveState),
    (∀ imp ∈ imps, imp.path ≠ "") →
    resolveRunOkAux used st imps = true →
    ResolveInv used processed st →
    ResolveInv used (processed ++ imps) (resolveLoop used st imps)
  | [], processed, st, _, _, hinv => by simpa using hinv
  | imp :: rest, processed, st, hne, hok, hinv => by
    rw [resolveRunOkAux, Bool.and_eq_true] at hok
    obtain ⟨hok1, hok2⟩ := hok
    have hstep := resolveStep_inv used processed st imp (hne imp (by simp)) hok1 hinv
    have hrec := resolveLoop_inv used rest (processed ++ [imp]) (resolveStep used st imp)
      (fun i hi => hne i (by simp [hi])) hok2 hstep
    rw [resolveLoop]
    simpa [List.append_assoc] using hrec

lemma initResolveInv (used : List String) : ResolveInv used [] initResolveState := by
  refine { keysEq := rfl, keysNodup := List.nodup_nil, aliasSwap := rfl,
           pathsNe := ?_, valuesNodup := List.nodup_nil, explicitOnly := ?_ } <;>
    simp [initResolveState]

/-- C1, counterexample: for the unit `import myalias "errors"` the final
alias of `"errors"` is `myalias`, which is itself a member of the collected
IdentifierSet (`CollectAllIdentifiers` records existing import aliases and
the explicit-alias branch never checks the identifier set), so the claimed
disjointness between final aliases and the IdentifierSet fails. -/
theorem c1_counterexample :
    glookup (resolveImportConflicts [unitExplicitAlias]).pathToAlias "\"errors\"" = "myalias"
    ∧ "myalias" ∈ collectAllIdentifiers [unitExplicitAlias] := by
  constructor
  · rfl
  · decide

/-- C1, amended: for every unit group whose import path literals are
non-empty and in which no `GenerateUniqueAlias` call exhausts its attempt
cap (`resolveRunOk`), the resolved table is bijective between paths and
aliases — every path is recorded exactly once, and no two distinct paths
share a final alias — and a final alias equal to a member of the
IdentifierSet occurs only as the verbatim copy of a written explicit alias
of that same path. -/
theorem c1_amended (files : List GoFile)
    (hwf : pathsNonempty files = true)
    (hok : resolveRunOk files = true) :
    ((resolveImportConflicts files).pathToAlias.map Prod.fst).Nodup
    ∧ ((resolveImportConflicts files).pathToAlias.map Prod.snd).Nodup
    ∧ ∀ pr ∈ (resolveImportConflicts files).pathToAlias,
        pr.2 ∈ collectAllIdentifiers files →
        ∃ imp ∈ allImports files, imp.path = pr.1 ∧ imp.name = some pr.2 := by
  rw [pathsNonempty] at hwf
  rw [resolveRunOk] at hok
  have hinv := resolveLoop_inv (collectAllIdentifiers files) (allImports files) []
    initResolveState
    (fun imp hi => by simpa using List.all_eq_true.mp hwf imp hi)
    hok (initResolveInv _)
  rw [resolveImportConflicts]
  exact ⟨hinv.keysNodup, hinv.valuesNodup,
    fun pr hpr hmem => by simpa using hinv.explicitOnly pr hpr hmem⟩

/-- Witness for C1 at the collision unit: the hypotheses hold and the final
aliases are pairwise distinct. -/
theorem c1_witness :
    pathsNonempty [unitErrCollision] = true
    ∧ resolveRunOk [unitErrCollision] = true
    ∧ ((resolveImportConflicts [unitErrCollision]).pathToAlias.map Prod.snd).Nodup :=
  ⟨by decide, by decide,
   (c1_amended [unitErrCollision] (by decide) (by decide)).2.1⟩

/-- C5: an explicitly aliased import keeps its exact written alias unless
that alias is already assigned as the final alias of a different import
path; in that case, and only in that case, the replacement is regenerated by
`GenerateUniqueAlias` seeded from the explicit alias itself (not from the
path's last segment); and the emitted import spec always carries a written
alias. -/
theorem c5_explicit_alias_preserved (used : List String) (st : ResolveState)
    (imp : GoImportSpec) (a : String)
    (hname : imp.name = some a)
    (hfresh : (st.pathToImport.find? (fun q => q.1 == imp.path)).isSome = false) :
    glookup (resolveStep used st imp).pathToAlias imp.path
      = (if explicitCollides st a imp.path
          then generateUniqueAlias a used st.aliasToPath else a)
    ∧ ∃ spec : GoImportSpec,
        (resolveStep used st imp).pathToImport.find? (fun q => q.1 == imp.path)
          = some (imp.path, spec)
        ∧ spec.name = some (if explicitCollides st a imp.path
            then generateUniqueAlias a used st.aliasToPath else a) := by
  rw [resolveStep_eq used st imp hfresh]
  have hassigned : assignedAlias used st imp
      = (if explicitCollides st a imp.path
          then generateUniqueAlias a used st.aliasToPath else a) := by
    simp [assignedAlias, hname]
  constructor
  · simp [resolveStepFresh, glookup, List.find?_cons, hassigned]
  · refine ⟨{ name := some (if explicitCollides st a imp.path
        then generateUniqueAlias a used st.aliasToPath else a), path := imp.path }, ?_, rfl⟩
    simp [resolveStepFresh, List.find?_cons, hname, hassigned]

/-- Witness for C5: a lone `import myalias "errors"` resolves to the
verbatim alias `myalias`. -/
theorem c5_witness :
    glookup (resolveStep [] initResolveState ⟨some "myalias", "\"errors\""⟩).pathToAlias
      "\"errors\"" = "myalias" := by
  have h := c5_explicit_alias_preserved [] initResolveState
    ⟨some "myalias", "\"errors\""⟩ "myalias" rfl (by decide)
  rw [h.1]
  decide

/-- C2, counterexample: with two dot-imports of different paths the second
one's alias is regenerated to `pkg`: dot-imports are not copied through
unchanged, and they do enter collision checks. -/
theorem c2_counterexample :
    glookup (resolveImportConflicts [unitTwoDots]).pathToAlias "\"b\"" = "pkg"
    ∧ ("pkg" : String) ≠ "." :=
  ⟨rfl, by decide⟩

/-- C2, amended: a dot- or blank-import behaves exactly like any other
explicitly aliased import: its alias is kept verbatim when `.` (resp. `_`)
is not yet assigned to a different path — in particular a lone special
one passes through unchanged — and is regenerated by
`GenerateUniqueAlias` otherwise; either way the assigned alias is registered
in the assigned-alias table, where later imports collide against it. -/
theorem c2_amended (used : List String) (st : ResolveState) (imp : GoImportSpec)
    (a : String) (_hspecial : a = "." ∨ a = "_") (hname : imp.name = some a)
    (hfresh : (st.pathToImport.find? (fun q => q.1 == imp.path)).isSome = false) :
    (explicitCollides st a imp.path = false →
        glookup (resolveStep used st imp).pathToAlias imp.path = a)
    ∧ (explicitCollides st a imp.path = true →
        glookup (resolveStep used st imp).pathToAlias imp.path
          = generateUniqueAlias a used st.aliasToPath)
    ∧ glookup (resolveStep used st imp).aliasToPath
        (glookup (resolveStep used st imp).pathToAlias imp.path) = imp.path := by
  rw [resolveStep_eq used st imp hfresh]
  refine ⟨?_, ?_, ?_⟩
  · intro hc
    simp [resolveStepFresh, glookup, List.find?_cons, assignedAlias, hname, hc]
  · intro hc
    simp [resolveStepFresh, glookup, List.find?_cons, assignedAlias, hname, hc]
  · simp [resolveStepFresh, glookup, List.find?_cons]

/-- Witness for C2: a lone dot-import keeps its `.` alias and registers it. -/
theorem c2_witness :
    glookup (resolveStep [] initResolveState ⟨some ".", "\"a\""⟩).pathToAlias "\"a\"" = "." := by
  have h := c2_amended [] initResolveState ⟨some ".", "\"a\""⟩ "." (Or.inl rfl) rfl (by decide)
  exact h.1 (by decide)

/-- C6, counterexample: the collision-free import of `"github.com/x/my-pkg"`
(a unit with no identifiers at all) keeps the raw candidate `my-pkg` — not a
valid identifier — as its final alias, and is emitted with no written alias:
the candidate is not passed through `SanitizeIdentifier` before the
collision check. -/
theorem c6_counterexample :
    glookup (resolveImportConflicts [unitDashPkg]).pathToAlias "\"github.com/x/my-pkg\""
      = "my-pkg"
    ∧ sanitizeIdentifier "my-pkg" = "pkg"
    ∧ ("my-pkg" : String) ≠ "pkg"
    ∧ collectAllIdentifiers [unitDashPkg] = []
    ∧ (resolveImportConflicts [unitDashPkg]).pathToImport
        = [("\"github.com/x/my-pkg\"", ⟨none, "\"github.com/x/my-pkg\""⟩)] :=
  ⟨rfl, by decide, by decide, rfl, rfl⟩

/-- C6, amended: the candidate alias follows the precedence explicit alias →
standard-alias-table entry → last path segment, but is NOT sanitized before
the collision check: a collision-free import keeps the raw candidate as its
final alias (sanitization happens only inside `GenerateUniqueAlias` when a
collision forces regeneration). -/
theorem c6_candidate_unsanitized (used : List String) (st : ResolveState)
    (imp : GoImportSpec)
    (hfresh : (st.pathToImport.find? (fun q => q.1 == imp.path)).isSome = false)
    (hnc : (match imp.name with
        | some a => explicitCollides st a imp.path
        | none => used.contains (preferredCandidate imp)
            || glookup st.aliasToPath (preferredCandidate imp) != "") = false) :
    glookup (resolveStep used st imp).pathToAlias imp.path = preferredCandidate imp := by
  rw [resolveStep_eq used st imp hfresh]
  cases hname : imp.name with
  | some a =>
    simp only [hname] at hnc
    simp [resolveStepFresh, glookup, List.find?_cons, assignedAlias, hname, hnc,
      preferredCandidate]
  | none =>
    simp only [hname] at hnc
    have ha : assignedAlias used st imp = preferredCandidate imp := by
      simp only [assignedAlias, hname]
      simp only [hnc, Bool.false_eq_true, if_false]
    simp [resolveStepFresh, glookup, List.find?_cons, ha]

/-- Witness for C6: the `my-pkg` import, collision-free, receives the raw
candidate as alias. -/
theorem c6_witness :
    glookup (resolveStep [] initResolveState ⟨none, "\"github.com/x/my-pkg\""⟩).pathToAlias
      "\"github.com/x/my-pkg\"" = "my-pkg" := by
  have h := c6_candidate_unsanitized [] initResolveState ⟨none, "\"github.com/x/my-pkg\""⟩
    (by decide) (by decide)
  rw [h]
  decide

/-! ### Deduplication-count lemmas -/

lemma dedupFoldAux_append (seen l₁ l₂ : List String) :
    dedupFoldAux seen (l₁ ++ l₂) = dedupFoldAux (dedupFoldAux seen l₁) l₂ := by
  induction l₁ generalizing seen with
  | nil => rfl
  | cons s ss ih =>
    simp only [List.cons_append, dedupFoldAux]
    by_cases h : seen.contains s
    · rw [if_pos h, if_pos h]
      exact ih seen
    · rw [if_neg h, if_neg h]
      exact ih (s :: seen)

lemma mem_dedupFoldAux (a : String) (seen l : List String) :
    a ∈ dedupFoldAux seen l ↔ a ∈ seen ∨ a ∈ l := by
  induction l generalizing seen with
  | nil => simp [dedupFoldAux]
  | cons s ss ih =>
    rw [dedupFoldAux]
    by_cases h : seen.contains s
    · rw [if_pos h, ih]
      have hs : s ∈ seen := List.elem_iff.mp h
      constructor
      · rintro (h1 | h1)
        · exact Or.inl h1
        · exact Or.inr (List.mem_cons.mpr (Or.inr h1))
      · rintro (h1 | h1)
        · exact Or.inl h1
        · rcases List.mem_cons.mp h1 with h2 | h2
          · exact Or.inl (h2 ▸ hs)
          · exact Or.inr h2
    · rw [if_neg h, ih]
      constructor
      · rintro (h1 | h1)
        · rcases List.mem_cons.mp h1 with h2 | h2
          · exact Or.inr (List.mem_cons.mpr (Or.inl h2))
          · exact Or.inl h2
        · exact Or.inr (List.mem_cons.mpr (Or.inr h1))
      · rintro (h1 | h1)
        · exact Or.inl (List.mem_cons.mpr (Or.inr h1))
        · rcases List.mem_cons.mp h1 with h2 | h2
          · exact Or.inl (List.mem_cons.mpr (Or.inl h2))
          · exact Or.inr h2

lemma nodup_dedupFoldAux (seen l : List String) (h : seen.Nodup) :
    (dedupFoldAux seen l).Nodup := by
  induction l generalizing seen with
  | nil => exact h
  | cons s ss ih =>
    rw [dedupFoldAux]
    by_cases hc : seen.contains s
    · rw [if_pos hc]
      exact ih seen h
    · rw [if_neg hc]
      refine ih (s :: seen) (List.nodup_cons.mpr ⟨?_, h⟩)
      intro hm
      exact hc (List.elem_iff.mpr hm)

lemma length_dedupFoldAux (l : List String) :
    (dedupFoldAux [] l).length = l.dedup.length := by
  have h1 : (dedupFoldAux [] l).Nodup := nodup_dedupFoldAux [] l List.nodup_nil
  have h2 : (dedupFoldAux [] l).toFinset = l.dedup.toFinset := by
    ext a
    simp [List.mem_toFinset, mem_dedupFoldAux, List.mem_dedup]
  calc (dedupFoldAux [] l).length
      = (dedupFoldAux [] l).toFinset.card := (List.toFinset_card_of_nodup h1).symm
    _ = l.dedup.toFinset.card := by rw [h2]
    _ = l.dedup.length := List.toFinset_card_of_nodup (List.nodup_dedup l)

lemma nonImportSigs_cons_import (d : GoDecl) (ds : List GoDecl)
    (h : isImportDecl d = true) : nonImportSigs (d :: ds) = nonImportSigs ds := by
  simp [nonImportSigs, List.filter_cons, h]

lemma nonImportSigs_cons_sig (d : GoDecl) (ds : List GoDecl)
    (h : isImportDecl d = false) (s : String)
    (hs : generateDeclarationSignature d = some s) :
    nonImportSigs (d :: ds) = s :: nonImportSigs ds := by
  simp [nonImportSigs, List.filter_cons, h, List.filterMap_cons, hs]

lemma mergeDeclsFile_count (orig : List (String × String))
    (fin : List (String × GoImportSpec)) :
    ∀ (ds : List GoDecl) (seen : List String),
    (∀ d ∈ ds, isImportDecl d = false → (generateDeclarationSignature d).isSome = true) →
    (mergeDeclsFile orig fin seen ds).1 = dedupFoldAux seen (nonImportSigs ds)
    ∧ (mergeDeclsFile orig fin seen ds).2.1.length + seen.length
        = (dedupFoldAux seen (nonImportSigs ds)).length
  | [], seen, _ => by simp [mergeDeclsFile, nonImportSigs, dedupFoldAux]
  | d :: ds, seen, htot => by
    by_cases himp : isImportDecl d = true
    · have ih := mergeDeclsFile_count orig fin ds seen
        (fun x hx => htot x (List.mem_cons.mpr (Or.inr hx)))
      rw [mergeDeclsFile, nonImportSigs_cons_import d ds himp]
      simp only [himp, if_true]
      exact ⟨ih.1, by simpa using ih.2⟩
    · have himpf : isImportDecl d = false := Bool.eq_false_iff.mpr himp
      cases hsig : generateDeclarationSignature d with
      | none =>
        exfalso
        have := htot d (List.mem_cons.mpr (Or.inl rfl)) himpf
        rw [hsig] at this
        simp at this
      | some s =>
        by_cases hseen : seen.contains s
        · have ih := mergeDeclsFile_count orig fin ds seen
            (fun x hx => htot x (List.mem_cons.mpr (Or.inr hx)))
          rw [mergeDeclsFile, nonImportSigs_cons_sig d ds himpf s hsig, dedupFoldAux]
          simp only [himpf, Bool.false_eq_true, if_false, hsig, if_pos hseen]
          exact ⟨ih.1, by simpa using ih.2⟩
        · have ih := mergeDeclsFile_count orig fin ds (s :: seen)
            (fun x hx => htot x (List.mem_cons.mpr (Or.inr hx)))
          rw [mergeDeclsFile, nonImportSigs_cons_sig d ds himpf s hsig, dedupFoldAux]
          simp only [himpf, Bool.false_eq_true, if_false, hsig, if_neg hseen]
          refine ⟨ih.1, ?_⟩
          have h2 := ih.2
          simp only [List.length_cons] at h2 ⊢
          omega

lemma mergeFilesLoop_count (fin : List (String × GoImportSpec)) :
    ∀ (files : List GoFile) (seen : List String),
    (∀ f ∈ files, ∀ d ∈ f.decls, isImportDecl d = false →
        (generateDeclarationSignature d).isSome = true) →
    (mergeFilesLoop fin seen files).1
        = dedupFoldAux seen (files.flatMap (fun f => nonImportSigs f.decls))
    ∧ (mergeFilesLoop fin seen files).2.1.length + seen.length
        = (dedupFoldAux seen (files.flatMap (fun f => nonImportSigs f.decls))).length
  | [], seen, _ => by simp [mergeFilesLoop, dedupFoldAux]
  | f :: fs, seen, htot => by
    have h1 := mergeDeclsFile_count (fileImportMapping f) fin f.decls seen
      (fun d hd => htot f (List.mem_cons.mpr (Or.inl rfl)) d hd)
    have ih := mergeFilesLoop_count fin fs
      (mergeDeclsFile (fileImportMapping f) fin seen f.decls).1
      (fun g hg => htot g (List.mem_cons.mpr (Or.inr hg)))
    rw [mergeFilesLoop, List.flatMap_cons, dedupFoldAux_append]
    constructor
    · rw [← h1.1]
      exact ih.1
    · rw [h1.1]
      simp only [List.length_append]
      have hA := h1.2
      have hB := ih.2
      rw [h1.1] at hB
      omega

lemma allSigs_flatMap (files : List GoFile) :
    allSigs files = files.flatMap (fun f => nonImportSigs f.decls) := by
  induction files with
  | nil => rfl
  | cons f fs ih =>
    have hstep : allSigs (f :: fs) = nonImportSigs f.decls ++ allSigs fs := by
      simp [allSigs, allNonImportDecls, nonImportSigs, List.flatMap_cons,
        List.filterMap_append]
    rw [hstep, List.flatMap_cons, ih]

/-- C3, counterexample: merging `var a, b` with `var a, c` keeps both
declarations (their composite signatures `var:a,var:b` and `var:a,var:c`
differ), so the merged count is 2, while the number of distinct signatures
under the claim's independent per-name reading (`var:a`, `var:b`, `var:c`)
is 3 — the claimed count equality fails, and the second group is not dropped
even though the signature `var:a` has already occurred. -/
theorem c3_counterexample :
    (mergeASTs [unitVarAB, unitVarAC]).map (fun m => m.decls.length) = Except.ok 2
    ∧ ((allNonImportDecls [unitVarAB, unitVarAC]).flatMap claimDeclSignatures).dedup.length = 3
    ∧ (2 : Nat) ≠ 3 :=
  ⟨rfl, by decide, by decide⟩

/-- C3, amended: the deduplication signature is the composite one — `Type`
specs give `type:name`, a Var/Const group joins one `kind:name` fragment per
bound name with commas into a single signature, functions give `func:name`,
methods give `method:receiverType.name` with the receiver resolved past
pointer indirection — the first occurrence of each composite signature is
kept in unit order and intra-unit order, later occurrences are dropped
regardless of body, and for every group whose non-import declarations all
carry a signature the merged declaration count (excluding the import block)
equals the number of distinct composite signatures. -/
theorem c3_dedup_count (files : List GoFile) (m : MergedFile)
    (htot : allSigsTotal files = true)
    (hok : mergeASTs files = Except.ok m) :
    m.decls.length = (allSigs files).dedup.length := by
  cases files with
  | nil => simp [mergeASTs, mergeASTsFull, Except.map] at hok
  | cons f fs =>
    by_cases hany : ((f :: fs).any (fun g => g.pkgName != f.pkgName)) = true
    · simp [mergeASTs, mergeASTsFull, hany, Except.map] at hok
    · have hm : m.decls = (mergeFilesLoop
          (resolveImportConflicts (f :: fs)).pathToImport [] (f :: fs)).2.1 := by
        simp only [mergeASTs, mergeASTsFull, hany, Bool.false_eq_true, if_false,
          Except.map] at hok
        have heq := (Except.ok.injEq _ _).mp hok
        rw [← heq]
      have htot' : ∀ g ∈ f :: fs, ∀ d ∈ g.decls, isImportDecl d = false →
          (generateDeclarationSignature d).isSome = true := by
        intro g hg d hd hni
        have hmem : d ∈ allNonImportDecls (f :: fs) := by
          rw [allNonImportDecls]
          exact List.mem_flatMap.mpr ⟨g, hg, List.mem_filter.mpr ⟨hd, by simp [hni]⟩⟩
        exact List.all_eq_true.mp htot d hmem
      have hcount := (mergeFilesLoop_count
        (resolveImportConflicts (f :: fs)).pathToImport (f :: fs) [] htot').2
      simp only [List.length_nil, Nat.add_zero] at hcount
      rw [hm, hcount, allSigs_flatMap]
      exact length_dedupFoldAux _

/-- Witness for C3 at two units both declaring `type User`: the duplicate is
dropped and the merged count equals the distinct-signature count. -/
theorem c3_witness :
    allSigsTotal [unitTypeUser, unitTypeUser] = true
    ∧ mergeASTs [unitTypeUser, unitTypeUser] = Except.ok mergedTypeUser
    ∧ mergedTypeUser.decls.length = (allSigs [unitTypeUser, unitTypeUser]).dedup.length :=
  ⟨by decide, rfl,
   c3_dedup_count [unitTypeUser, unitTypeUser] mergedTypeUser (by decide) rfl⟩

/-! ### Input-mutation lemmas -/

lemma mergeDeclsFile_post_shape (orig : List (String × String))
    (fin : List (String × GoImportSpec)) :
    ∀ (ds : List GoDecl) (seen : List String),
    (mergeDeclsFile orig fin seen ds).2.2.length = ds.length
  | [], _ => rfl
  | d :: ds, seen => by
    rw [mergeDeclsFile]
    by_cases himp : isImportDecl d = true
    · simp [himp, mergeDeclsFile_post_shape orig fin ds seen]
    · have himpf : isImportDecl d = false := Bool.eq_false_iff.mpr himp
      cases hsig : generateDeclarationSignature d with
      | none => simp [himpf, hsig, mergeDeclsFile_post_shape orig fin ds seen]
      | some s =>
        by_cases hseen : seen.contains s
        · have hmem : s ∈ seen := List.elem_iff.mp hseen
          simp [himpf, hsig, hmem, mergeDeclsFile_post_shape orig fin ds seen]
        · have hmem : s ∉ seen := fun hm => hseen (List.elem_iff.mpr hm)
          simp [himpf, hsig, hmem, mergeDeclsFile_post_shape orig fin ds (s :: seen)]

lemma mergeFilesLoop_post_proj (fin : List (String × GoImportSpec)) :
    ∀ (files : List GoFile) (seen : List String),
    (mergeFilesLoop fin seen files).2.2.map GoFile.pkgName = files.map GoFile.pkgName
    ∧ (mergeFilesLoop fin seen files).2.2.map GoFile.imports = files.map GoFile.imports
  | [], _ => ⟨rfl, rfl⟩
  | f :: fs, seen => by
    rw [mergeFilesLoop]
    have ih := mergeFilesLoop_post_proj fin fs
      (mergeDeclsFile (fileImportMapping f) fin seen f.decls).1
    simp [ih.1, ih.2]

lemma mergeDeclsFile_post_id (orig : List (String × String))
    (fin : List (String × GoImportSpec)) (hmap : buildAliasMap orig fin = []) :
    ∀ (ds : List GoDecl) (seen : List String),
    (mergeDeclsFile orig fin seen ds).2.2 = ds
  | [], _ => rfl
  | d :: ds, seen => by
    have hupd : updateIdentifiersForDeclaration d orig fin = d := by
      rw [updateIdentifiersForDeclaration, hmap]
      simp
    have hkeep : (if orig.length > 0 then updateIdentifiersForDeclaration d orig fin else d)
        = d := by
      by_cases h0 : orig.length > 0
      · rw [if_pos h0, hupd]
      · rw [if_neg h0]
    rw [mergeDeclsFile]
    by_cases himp : isImportDecl d = true
    · simp [himp, mergeDeclsFile_post_id orig fin hmap ds seen]
    · have himpf : isImportDecl d = false := Bool.eq_false_iff.mpr himp
      cases hsig : generateDeclarationSignature d with
      | none => simp [himpf, hsig, hkeep, mergeDeclsFile_post_id orig fin hmap ds seen]
      | some s =>
        by_cases hseen : seen.contains s
        · have hmem : s ∈ seen := List.elem_iff.mp hseen
          simp [himpf, hsig, hmem, mergeDeclsFile_post_id orig fin hmap ds seen]
        · have hmem : s ∉ seen := fun hm => hseen (List.elem_iff.mpr hm)
          simp [himpf, hsig, hmem, hkeep,
            mergeDeclsFile_post_id orig fin hmap ds (s :: seen)]

lemma mergeFilesLoop_post_id (fin : List (String × GoImportSpec)) :
    ∀ (files : List GoFile) (seen : List String),
    (∀ f ∈ files, buildAliasMap (fileImportMapping f) fin = []) →
    (mergeFilesLoop fin seen files).2.2 = files
  | [], _, _ => rfl
  | f :: fs, seen, hall => by
    rw [mergeFilesLoop]
    have h1 := mergeDeclsFile_post_id (fileImportMapping f) fin
      (hall f (List.mem_cons.mpr (Or.inl rfl))) f.decls seen
    have ih := mergeFilesLoop_post_id fin fs
      (mergeDeclsFile (fileImportMapping f) fin seen f.decls).1
      (fun g hg => hall g (List.mem_cons.mpr (Or.inr hg)))
    simp only [h1, ih]

/-- C8, counterexample: merging the collision unit rewrites the qualified
reference `errors.New` to `errorspkg.New` inside the kept declaration, and
the post-call input unit carries the rewritten node (the merged output is
assembled from the same mutated declaration): the input AST is not
unchanged. -/
theorem c8_counterexample :
    (mergeASTsFull [unitErrCollision]).map (fun pr => pr.2.flatMap selHeadsFile)
      = Except.ok ["errorspkg"]
    ∧ [unitErrCollision].flatMap selHeadsFile = ["errors"]
    ∧ ("errorspkg" : String) ≠ "errors" :=
  ⟨rfl, rfl, by decide⟩

/-- C8, amended: `MergeASTs` never touches the input units' package names
or import specs (the merged import block is freshly built), and the input
declarations are unchanged precisely in the absence of alias changes: when
every unit's changed-alias map is empty the post-call inputs equal the
originals; when an alias changes, kept declarations are rewritten in place
and shared with the merged output. -/
theorem c8_inputs_rewritten (files : List GoFile) (m : MergedFile) (post : List GoFile)
    (hok : mergeASTsFull files = Except.ok (m, post)) :
    post.map GoFile.pkgName = files.map GoFile.pkgName
    ∧ post.map GoFile.imports = files.map GoFile.imports
    ∧ (noAliasChanges files = true → post = files) := by
  cases files with
  | nil => simp [mergeASTsFull] at hok
  | cons f fs =>
    by_cases hany : ((f :: fs).any (fun g => g.pkgName != f.pkgName)) = true
    · simp [mergeASTsFull, hany] at hok
    · have hpost : post = (mergeFilesLoop
          (resolveImportConflicts (f :: fs)).pathToImport [] (f :: fs)).2.2 := by
        simp only [mergeASTsFull, hany, Bool.false_eq_true, if_false] at hok
        have heq := (Except.ok.injEq _ _).mp hok
        exact (congrArg Prod.snd heq).symm
      have hproj := mergeFilesLoop_post_proj
        (resolveImportConflicts (f :: fs)).pathToImport (f :: fs) []
      refine ⟨by rw [hpost]; exact hproj.1, by rw [hpost]; exact hproj.2, ?_⟩
      intro hnc
      rw [noAliasChanges] at hnc
      have hall : ∀ g ∈ f :: fs,
          buildAliasMap (fileImportMapping g)
            (resolveImportConflicts (f :: fs)).pathToImport = [] := by
        intro g hg
        have := List.all_eq_true.mp hnc g hg
        exact List.isEmpty_iff.mp this
      rw [hpost]
      exact mergeFilesLoop_post_id (resolveImportConflicts (f :: fs)).pathToImport
        (f :: fs) [] hall

/-- Witness for C8: a collision-free unit is passed through untouched. -/
theorem c8_witness :
    noAliasChanges [unitFmtOnly] = true
    ∧ mergeASTsFull [unitFmtOnly] = Except.ok (mergedFmtOnly, [unitFmtOnly])
    ∧ ([unitFmtOnly] : List GoFile) = [unitFmtOnly] :=
  ⟨by decide, rfl,
   (c8_inputs_rewritten [unitFmtOnly] mergedFmtOnly [unitFmtOnly] rfl).2.2 (by decide)⟩
